import Mathlib

/-!
Shallow embedding of the EVERWIN poker table manager core (src/src/App.tsx, v5).

Timestamps are modelled as integer milliseconds. JavaScript numeric amounts
are modelled as integers, with a separate constructor standing for the
non-finite values rejected by Number.isFinite. Rendered date strings, which
the code produces from the ambient clock via formatDateTime, are passed into
the operations as explicit string parameters. UI alerts and confirmation
dialogs are modelled by boolean parameters: a declined confirmation returns
the table unchanged, exactly as the handlers do.
-/

inductive SeatStatus where
  | idle
  | seated
  | rest
deriving DecidableEq

structure SeatState where
  id : Nat
  memberId : String
  status : SeatStatus
  activeSeconds : Int
  restSeconds : Int
  lastActiveStart : Option Int
  lastRestStart : Option Int
  buyInAmount : Int
  transferNote : Option String
  sessionStart : Option String
  selectedForBatch : Bool
deriving DecidableEq

structure SessionRow where
  date : String
  tableId : Nat
  tableName : String
  seatId : Nat
  memberId : String
  startTime : String
  endTime : String
  activeSeconds : Int
  restSeconds : Int
  durationHMS : String
  buyInDisplay : String
  buyInAmount : Option Int
  transferNote : Option String
deriving DecidableEq

structure TableState where
  id : Nat
  name : String
  blinds : String
  openedAt : Option String
  closedAt : Option String
  elapsedSeconds : Int
  lastStartTime : Option Int
  isRunning : Bool
  seats : List SeatState
  sessions : List SessionRow
deriving DecidableEq

/-- Model of the values produced by Number(raw) from a prompt string: either a
finite number or one of the non-finite values (NaN, Infinity) that the
handlers reject via Number.isFinite. -/
inductive JsNumber where
  | finite (q : Int)
  | nan
deriving DecidableEq

/-- JavaScript whitespace test used by String.prototype.trim, restricted to
the characters that can realistically occur in the member id inputs. -/
def isJsWS (c : Char) : Bool :=
  c == ' ' || c == '\t' || c == '\n' || c == '\r'

/-- Model of the JavaScript String.prototype.trim: drop whitespace from both
ends of the character list. -/
def jsTrim (s : String) : String :=
  String.mk (List.rdropWhile isJsWS (s.data.dropWhile isJsWS))

/-- Model of formatHMS: zero padded HH:MM:SS rendering with unbounded hours,
clamping negative inputs to zero exactly as Math.max(0, Math.floor(x)) does. -/
def formatHMS (totalSeconds : Int) : String :=
  let s : Nat := (max 0 totalSeconds).toNat
  let h := s / 3600
  let m := (s % 3600) / 60
  let sec := s % 60
  let pad := fun (n : Nat) => if n < 10 then "0" ++ toString n else toString n
  pad h ++ ":" ++ pad m ++ ":" ++ pad sec

/-- Model of createInitialSeat. -/
def createInitialSeat (id : Nat) : SeatState :=
  { id := id
    memberId := ""
    status := SeatStatus.idle
    activeSeconds := 0
    restSeconds := 0
    lastActiveStart := none
    lastRestStart := none
    buyInAmount := 0
    transferNote := none
    sessionStart := none
    selectedForBatch := false }

/-- Model of createInitialTable: nine idle seats, empty ledger, stopped clock. -/
def createInitialTable (id : Nat) : TableState :=
  { id := id
    name := "Table " ++ toString id
    blinds := ""
    openedAt := none
    closedAt := none
    elapsedSeconds := 0
    lastStartTime := none
    isRunning := false
    seats := (List.range 9).map (fun i => createInitialSeat (i + 1))
    sessions := [] }

/-- Model of getTableElapsedSeconds: the pure elapsed projection for the
table clock. -/
def getTableElapsedSeconds (tbl : TableState) (nowMs : Int) : Int :=
  match tbl.isRunning, tbl.lastStartTime with
  | true, some t => tbl.elapsedSeconds + max 0 ((nowMs - t).fdiv 1000)
  | _, _ => tbl.elapsedSeconds

/-- Model of getSeatActiveSeconds: the pure elapsed projection for an open
active interval. -/
def getSeatActiveSeconds (seat : SeatState) (nowMs : Int) : Int :=
  match seat.status, seat.lastActiveStart with
  | SeatStatus.seated, some t => seat.activeSeconds + max 0 ((nowMs - t).fdiv 1000)
  | _, _ => seat.activeSeconds

/-- Model of getSeatRestSeconds: the pure elapsed projection for an open rest
interval. -/
def getSeatRestSeconds (seat : SeatState) (nowMs : Int) : Int :=
  match seat.status, seat.lastRestStart with
  | SeatStatus.rest, some t => seat.restSeconds + max 0 ((nowMs - t).fdiv 1000)
  | _, _ => seat.restSeconds

/-- Model of hasActivePlayers: true when some seat is in seated status. -/
def hasActivePlayers (tbl : TableState) : Bool :=
  tbl.seats.any (fun s => decide (s.status = SeatStatus.seated))

/-- Model of findSeatByMember: the first seat whose member id equals the
trimmed argument and whose status is seated or rest. -/
def findSeatByMember (tbl : TableState) (memberId : String) : Option SeatState :=
  let id := jsTrim memberId
  if id = "" then none
  else tbl.seats.find? (fun s =>
    decide (s.memberId = id ∧ (s.status = SeatStatus.seated ∨ s.status = SeatStatus.rest)))

/-- Model of appendSessionRow: builds the Session Record for a seat being
vacated, or none when the member id or the session start is missing, using
the JavaScript truthiness test on both fields. -/
def appendSessionRow (tbl : TableState) (seat : SeatState) (endTimeStr : String)
    (dateStr : String) (nowMs : Int) : Option SessionRow :=
  match seat.sessionStart with
  | none => none
  | some st =>
    if seat.memberId = "" ∨ st = "" then none
    else
      let activeSeconds := getSeatActiveSeconds seat nowMs
      let restSeconds := getSeatRestSeconds seat nowMs
      some
        { date := dateStr
          tableId := tbl.id
          tableName := tbl.name
          seatId := seat.id
          memberId := seat.memberId
          startTime := st
          endTime := endTimeStr
          activeSeconds := activeSeconds
          restSeconds := restSeconds
          durationHMS := formatHMS activeSeconds
          buyInDisplay :=
            match seat.transferNote with
            | some note => note
            | none => toString seat.buyInAmount
          buyInAmount :=
            match seat.transferNote with
            | some _ => none
            | none => some seat.buyInAmount
          transferNote := seat.transferNote }

/-- Model of clearSeat: resets every session field of a seat to its idle
defaults, keeping only the seat id. -/
def clearSeat (seat : SeatState) : SeatState :=
  { seat with
    status := SeatStatus.idle
    activeSeconds := 0
    restSeconds := 0
    lastActiveStart := none
    lastRestStart := none
    buyInAmount := 0
    transferNote := none
    sessionStart := none
    selectedForBatch := false
    memberId := "" }

/-- The per seat update of the non transfer branch of handleSeatUp: no change
when already seated, otherwise fold an open rest interval, reset accumulators
and stamp a fresh session start when idle, and become seated anchored at now. -/
def seatUpFoldUpdate (s : SeatState) (nowMs : Int) (nowStr : String) : SeatState :=
  if s.status = SeatStatus.seated then s
  else
    let restSeconds :=
      match s.status, s.lastRestStart with
      | SeatStatus.rest, some t => s.restSeconds + max 0 ((nowMs - t).fdiv 1000)
      | _, _ => s.restSeconds
    let activeSeconds2 := if s.status = SeatStatus.idle then 0 else s.activeSeconds
    let restSeconds2 := if s.status = SeatStatus.idle then 0 else restSeconds
    let sessionStart2 := if s.status = SeatStatus.idle then some nowStr else s.sessionStart
    { s with
      status := SeatStatus.seated
      lastActiveStart := some nowMs
      lastRestStart := none
      activeSeconds := activeSeconds2
      restSeconds := restSeconds2
      sessionStart := sessionStart2 }

/-- Model of handleStartOrResume. -/
def handleStartOrResume (tbl : TableState) (nowMs : Int) (nowStr : String) : TableState :=
  if tbl.isRunning then tbl
  else
    { tbl with
      openedAt := some (tbl.openedAt.getD nowStr)
      isRunning := true
      lastStartTime := some nowMs
      closedAt := none }

/-- Model of handlePause: rejected while any seat is seated; otherwise a
no-op unless running with an anchor, in which case the clock freezes. -/
def handlePause (tbl : TableState) (nowMs : Int) : TableState :=
  if hasActivePlayers tbl then tbl
  else
    match tbl.isRunning, tbl.lastStartTime with
    | true, some _ =>
      { tbl with
        isRunning := false
        lastStartTime := none
        elapsedSeconds := getTableElapsedSeconds tbl nowMs }
    | _, _ => tbl

/-- Model of the state mutation of handleStop (the CSV export is an external
effect and does not change the table state). -/
def handleStop (tbl : TableState) (nowMs : Int) (nowStr : String) : TableState :=
  if hasActivePlayers tbl then tbl
  else
    { tbl with
      isRunning := false
      lastStartTime := none
      elapsedSeconds := getTableElapsedSeconds tbl nowMs
      closedAt := some nowStr }

/-- Model of handleResetTable: on confirmation the table is replaced by a
fresh initial table keeping only its name; declining leaves it unchanged. -/
def handleResetTable (tbl : TableState) (confirmReset : Bool) : TableState :=
  if confirmReset then { createInitialTable tbl.id with name := tbl.name }
  else tbl

/-- Model of handleBlindsChange. -/
def handleBlindsChange (tbl : TableState) (value : String) : TableState :=
  { tbl with blinds := value }

/-- Model of handleToggleBatchSeat. -/
def handleToggleBatchSeat (tbl : TableState) (seatId : Nat) : TableState :=
  { tbl with
    seats := tbl.seats.map (fun s =>
      if s.id = seatId then { s with selectedForBatch := !s.selectedForBatch } else s) }

/-- Model of handleMemberChange: overwrites the member id of the addressed
seat with the trimmed input, whatever the seat status. -/
def handleMemberChange (tbl : TableState) (seatId : Nat) (value : String) : TableState :=
  { tbl with
    seats := tbl.seats.map (fun s =>
      if s.id = seatId then { s with memberId := jsTrim value } else s) }

/-- Model of handleSeatUp, with the transfer confirmation dialog passed in as
a boolean. -/
def handleSeatUp (tbl : TableState) (seatId : Nat) (confirmMove : Bool)
    (nowMs : Int) (nowStr : String) (dateStr : String) : TableState :=
  if tbl.isRunning = false then tbl
  else
    match tbl.seats.find? (fun s => decide (s.id = seatId)) with
    | none => tbl
    | some seat =>
      let memberId := jsTrim seat.memberId
      if memberId = "" then tbl
      else
        match findSeatByMember tbl memberId with
        | some existing =>
          if existing.id = seatId then
            { tbl with
              seats := tbl.seats.map (fun s =>
                if s.id = seatId then seatUpFoldUpdate s nowMs nowStr else s) }
          else if confirmMove = false then tbl
          else
            let cleared := tbl.seats.map (fun s =>
              if s.id = existing.id then clearSeat s else s)
            let newRows := tbl.seats.filterMap (fun s =>
              if s.id = existing.id then appendSessionRow tbl s nowStr dateStr nowMs
              else none)
            let updatedSeats := cleared.map (fun s =>
              if s.id = seatId then
                { s with
                  status := SeatStatus.seated
                  lastActiveStart := some nowMs
                  lastRestStart := none
                  activeSeconds := 0
                  restSeconds := 0
                  sessionStart := some nowStr
                  transferNote := some ("Transfer-Seat" ++ toString existing.id) }
              else s)
            { tbl with seats := updatedSeats, sessions := tbl.sessions ++ newRows }
        | none =>
          { tbl with
            seats := tbl.seats.map (fun s =>
              if s.id = seatId then seatUpFoldUpdate s nowMs nowStr else s) }

/-- Model of handleRest. -/
def handleRest (tbl : TableState) (seatId : Nat) (nowMs : Int) : TableState :=
  { tbl with
    seats := tbl.seats.map (fun s =>
      if s.id = seatId then
        match s.status, s.lastActiveStart with
        | SeatStatus.seated, some t =>
          { s with
            status := SeatStatus.rest
            lastActiveStart := none
            lastRestStart := some nowMs
            activeSeconds := s.activeSeconds + max 0 ((nowMs - t).fdiv 1000) }
        | _, _ => s
      else s) }

/-- Model of handleLeave: unconditionally clears the addressed seat, and
appends the Session Record produced by appendSessionRow when it exists. -/
def handleLeave (tbl : TableState) (seatId : Nat) (nowMs : Int)
    (nowStr : String) (dateStr : String) : TableState :=
  { tbl with
    seats := tbl.seats.map (fun s => if s.id = seatId then clearSeat s else s)
    sessions := tbl.sessions ++ tbl.seats.filterMap (fun s =>
      if s.id = seatId then appendSessionRow tbl s nowStr dateStr nowMs else none) }

/-- Model of handleAddBuyIn: the prompt result is either none (cancelled), a
non finite number (rejected), or a finite amount whose negative part is
clamped away before being added to the seat buy in. -/
def handleAddBuyIn (tbl : TableState) (seatId : Nat)
    (promptResult : Option JsNumber) : TableState :=
  match tbl.seats.find? (fun s => decide (s.id = seatId)) with
  | none => tbl
  | some _ =>
    match promptResult with
    | none => tbl
    | some JsNumber.nan => tbl
    | some (JsNumber.finite amt) =>
      { tbl with
        seats := tbl.seats.map (fun s =>
          if s.id = seatId then { s with buyInAmount := s.buyInAmount + max 0 amt }
          else s) }

/-- Model of handleBatchSeat, with the buy in prompt passed in. The body of
the success branch is an independent copy of the per seat logic, mirroring
the duplicated code in the source. -/
def handleBatchSeat (tbl : TableState) (promptResult : Option JsNumber)
    (nowMs : Int) (nowStr : String) : TableState :=
  if tbl.isRunning = false then tbl
  else
    let selected := tbl.seats.filter (fun s => s.selectedForBatch)
    if selected.length = 0 then tbl
    else if selected.any (fun s => decide (jsTrim s.memberId = "")) then tbl
    else if selected.any (fun s =>
        match findSeatByMember tbl s.memberId with
        | some e => decide (e.id ≠ s.id)
        | none => false) then tbl
    else
      match promptResult with
      | none => tbl
      | some JsNumber.nan => tbl
      | some (JsNumber.finite amt) =>
        let buyInDelta := max 0 amt
        { tbl with
          seats := tbl.seats.map (fun s =>
            if s.selectedForBatch = false then s
            else if s.status = SeatStatus.seated then
              { s with buyInAmount := s.buyInAmount + buyInDelta }
            else
              let restSeconds :=
                match s.status, s.lastRestStart with
                | SeatStatus.rest, some t => s.restSeconds + max 0 ((nowMs - t).fdiv 1000)
                | _, _ => s.restSeconds
              let activeSeconds2 := if s.status = SeatStatus.idle then 0 else s.activeSeconds
              let restSeconds2 := if s.status = SeatStatus.idle then 0 else restSeconds
              let sessionStart2 := if s.status = SeatStatus.idle then some nowStr else s.sessionStart
              { s with
                status := SeatStatus.seated
                lastActiveStart := some nowMs
                lastRestStart := none
                activeSeconds := activeSeconds2
                restSeconds := restSeconds2
                sessionStart := sessionStart2
                buyInAmount := s.buyInAmount + buyInDelta }) }

/-- Model of handleBatchLeave, with the confirmation dialog passed in. -/
def handleBatchLeave (tbl : TableState) (confirmLeave : Bool) (nowMs : Int)
    (nowStr : String) (dateStr : String) : TableState :=
  let selected := tbl.seats.filter (fun s =>
    s.selectedForBatch && decide (s.status ≠ SeatStatus.idle))
  if selected.length = 0 then tbl
  else if confirmLeave = false then tbl
  else
    { tbl with
      seats := tbl.seats.map (fun s =>
        if s.selectedForBatch = true ∧ s.status ≠ SeatStatus.idle then clearSeat s else s)
      sessions := tbl.sessions ++ tbl.seats.filterMap (fun s =>
        if s.selectedForBatch = true ∧ s.status ≠ SeatStatus.idle then
          appendSessionRow tbl s nowStr dateStr nowMs
        else none) }

/-- First occurrence deduplication, modelling the iteration order of a
JavaScript Set built from an array. -/
def dedupFirstAux (seen : List String) : List String → List String
  | [] => []
  | x :: xs => if x ∈ seen then dedupFirstAux seen xs else x :: dedupFirstAux (x :: seen) xs

/-- First occurrence deduplication of a list of strings. -/
def dedupFirst (l : List String) : List String := dedupFirstAux [] l

structure TableSummary where
  elapsed : Int
  totalBuyIn : Int
  uniqueMembers : Nat
  totalSessions : Nat
deriving DecidableEq

/-- Model of computeTableSummary. -/
def computeTableSummary (tbl : TableState) (nowMs : Int) : TableSummary :=
  { elapsed := getTableElapsedSeconds tbl nowMs
    totalBuyIn := tbl.sessions.foldl (fun sum s => s.buyInAmount.getD 0 + sum) 0
    uniqueMembers :=
      ((dedupFirst (tbl.sessions.map (fun s => s.memberId))).filter
        (fun id => decide (jsTrim id ≠ ""))).length
    totalSessions := tbl.sessions.length }

/-- The core operations a user can trigger on one table, with every ambient
input (clock readings, rendered date strings, prompt and confirm results)
made explicit. -/
inductive Op where
  | startOrResume (nowMs : Int) (nowStr : String)
  | pause (nowMs : Int)
  | stop (nowMs : Int) (nowStr : String)
  | resetTable (confirmReset : Bool)
  | blindsChange (value : String)
  | toggleBatchSeat (seatId : Nat)
  | memberChange (seatId : Nat) (value : String)
  | seatUp (seatId : Nat) (confirmMove : Bool) (nowMs : Int) (nowStr : String) (dateStr : String)
  | rest (seatId : Nat) (nowMs : Int)
  | leave (seatId : Nat) (nowMs : Int) (nowStr : String) (dateStr : String)
  | addBuyIn (seatId : Nat) (promptResult : Option JsNumber)
  | batchSeat (promptResult : Option JsNumber) (nowMs : Int) (nowStr : String)
  | batchLeave (confirmLeave : Bool) (nowMs : Int) (nowStr : String) (dateStr : String)
deriving DecidableEq

/-- Dispatch of an operation to its handler. -/
def applyOp (op : Op) (tbl : TableState) : TableState :=
  match op with
  | Op.startOrResume nowMs nowStr => handleStartOrResume tbl nowMs nowStr
  | Op.pause nowMs => handlePause tbl nowMs
  | Op.stop nowMs nowStr => handleStop tbl nowMs nowStr
  | Op.resetTable confirmReset => handleResetTable tbl confirmReset
  | Op.blindsChange v => handleBlindsChange tbl v
  | Op.toggleBatchSeat seatId => handleToggleBatchSeat tbl seatId
  | Op.memberChange seatId v => handleMemberChange tbl seatId v
  | Op.seatUp seatId c nowMs nowStr dateStr => handleSeatUp tbl seatId c nowMs nowStr dateStr
  | Op.rest seatId nowMs => handleRest tbl seatId nowMs
  | Op.leave seatId nowMs nowStr dateStr => handleLeave tbl seatId nowMs nowStr dateStr
  | Op.addBuyIn seatId promptResult => handleAddBuyIn tbl seatId promptResult
  | Op.batchSeat promptResult nowMs nowStr => handleBatchSeat tbl promptResult nowMs nowStr
  | Op.batchLeave c nowMs nowStr dateStr => handleBatchLeave tbl c nowMs nowStr dateStr

/-- Tables reachable from an initial table by any sequence of operations,
applied or rejected. -/
inductive Reachable : TableState → Prop where
  | init (id : Nat) : Reachable (createInitialTable id)
  | step (op : Op) {tbl : TableState} : Reachable tbl → Reachable (applyOp op tbl)

/-- The seat lifecycle invariant: exactly one of idle with no anchors, seated
with an active anchor, or rest with a rest anchor. -/
def seatLifecycleInv (s : SeatState) : Prop :=
  (s.status = SeatStatus.idle ∧ s.lastActiveStart = none ∧ s.lastRestStart = none) ∨
  (s.status = SeatStatus.seated ∧ s.lastActiveStart ≠ none ∧ s.lastRestStart = none) ∨
  (s.status = SeatStatus.rest ∧ s.lastRestStart ≠ none ∧ s.lastActiveStart = none)

/-- Auxiliary seat invariant: the member id is always a trim fixed point,
because it is only ever written as the trim of an input or as empty. -/
def seatMemberTrimInv (s : SeatState) : Prop :=
  s.memberId = jsTrim s.memberId

/-- Invariant of the Session Records the handlers append: transfer annotated
rows carry no numeric amount, and the member id is non empty and trimmed. -/
def rowInv (r : SessionRow) : Prop :=
  (r.transferNote ≠ none → r.buyInAmount = none) ∧
  r.memberId ≠ "" ∧ r.memberId = jsTrim r.memberId

/-- Combined table invariant maintained by every operation. -/
def tableInv (tbl : TableState) : Prop :=
  (∀ s ∈ tbl.seats, seatLifecycleInv s ∧ seatMemberTrimInv s) ∧
  (∀ r ∈ tbl.sessions, rowInv r) ∧
  (tbl.isRunning = true → tbl.lastStartTime ≠ none)

/-- Specification side total buy in: the sum of the numeric amounts of the
rows that carry no transfer annotation. -/
def specTotalBuyIn (rows : List SessionRow) : Int :=
  ((rows.filter (fun r => r.transferNote.isNone)).map (fun r => r.buyInAmount.getD 0)).sum

/-- Specification side distinct member count: the number of distinct non
empty member ids appearing in the rows. -/
def specUniqueMembers (rows : List SessionRow) : Nat :=
  ((rows.map (fun r => r.memberId)).filter (fun m => m != "")).dedup.length

/-- Concrete table: member M1 is seated at seat 1 with a fresh session and no
transfer annotation, and seat 2 carries the same member id while idle. -/
def tTransfer : TableState :=
  { createInitialTable 1 with
    isRunning := true
    lastStartTime := some 0
    seats := (createInitialTable 1).seats.map (fun s =>
      if s.id = 1 then
        { s with
          memberId := "M1"
          status := SeatStatus.seated
          lastActiveStart := some 0
          sessionStart := some "t0" }
      else if s.id = 2 then { s with memberId := "M1" }
      else s) }

/-- Concrete table: seat 1 is idle but a member id has been typed into it. -/
def tIdleTyped : TableState :=
  { createInitialTable 1 with
    seats := (createInitialTable 1).seats.map (fun s =>
      if s.id = 1 then { s with memberId := "X", selectedForBatch := true } else s) }

/-- Concrete table: seat 1 is seated with a session start but its member id
has been edited to the empty string. -/
def tSeatedNoMember : TableState :=
  { createInitialTable 1 with
    isRunning := true
    lastStartTime := some 0
    seats := (createInitialTable 1).seats.map (fun s =>
      if s.id = 1 then
        { s with
          status := SeatStatus.seated
          lastActiveStart := some 0
          sessionStart := some "t0" }
      else s) }

/-- Concrete table: seat 1 is resting with member W, an open rest interval
and some accumulated time, ready to be vacated. -/
def tRestingW : TableState :=
  { createInitialTable 1 with
    isRunning := true
    lastStartTime := some 0
    seats := (createInitialTable 1).seats.map (fun s =>
      if s.id = 1 then
        { s with
          memberId := "W"
          status := SeatStatus.rest
          activeSeconds := 65
          lastRestStart := some 65000
          sessionStart := some "t0"
          buyInAmount := 200 }
      else s) }

/-- A concrete non transfer Session Record. -/
def rowOne : SessionRow :=
  { date := "d"
    tableId := 1
    tableName := "Table 1"
    seatId := 1
    memberId := "M"
    startTime := "s"
    endTime := "e"
    activeSeconds := 10
    restSeconds := 0
    durationHMS := "00:00:10"
    buyInDisplay := "100"
    buyInAmount := some 100
    transferNote := none }

/-- Concrete table whose ledger holds one Session Record. -/
def tLedgerOne : TableState :=
  { createInitialTable 1 with sessions := [rowOne] }

/-- Concrete table: seats 1 and 2 both hold member M in seated status (the
seat 2 member id was edited afterwards), and seat 1 is batch selected. -/
def tDupSeated : TableState :=
  { createInitialTable 1 with
    isRunning := true
    lastStartTime := some 0
    seats := (createInitialTable 1).seats.map (fun s =>
      if s.id = 1 then
        { s with
          memberId := "M"
          status := SeatStatus.seated
          lastActiveStart := some 0
          sessionStart := some "t0"
          selectedForBatch := true }
      else if s.id = 2 then
        { s with
          memberId := "M"
          status := SeatStatus.seated
          lastActiveStart := some 0
          sessionStart := some "t0" }
      else s) }

/-- Concrete table: seat 1 is seated with member B7, buy in 10 and batch
selected; used to probe the batch buy in clamping. -/
def tSeatedB7 : TableState :=
  { createInitialTable 1 with
    isRunning := true
    lastStartTime := some 0
    seats := (createInitialTable 1).seats.map (fun s =>
      if s.id = 1 then
        { s with
          memberId := "B7"
          status := SeatStatus.seated
          lastActiveStart := some 0
          sessionStart := some "t0"
          buyInAmount := 10
          selectedForBatch := true }
      else s) }

/-- Concrete table: seat 1 is idle with member A typed in and batch selected,
on a running table. -/
def tBatchReady : TableState :=
  { createInitialTable 1 with
    isRunning := true
    lastStartTime := some 0
    seats := (createInitialTable 1).seats.map (fun s =>
      if s.id = 1 then { s with memberId := "A", selectedForBatch := true } else s) }

/-- Concrete running table reached by one start operation. -/
def tStarted : TableState :=
  applyOp (Op.startOrResume 100 "o") (createInitialTable 1)

/-- Concrete reachable table with a seated seat whose member id has been
edited back to the empty string: start, type M at seat 1, seat up, erase the
member id. -/
def tGhostSeated : TableState :=
  applyOp (Op.memberChange 1 "")
    (applyOp (Op.seatUp 1 true 0 "s0" "d")
      (applyOp (Op.memberChange 1 "M") tStarted))

/-- Concrete reachable table whose ledger holds one row: start, type M at
seat 1, seat up at time 0, leave at time 10 seconds. -/
def tAfterLeave : TableState :=
  applyOp (Op.leave 1 10000 "e" "d")
    (applyOp (Op.seatUp 1 true 0 "s0" "d")
      (applyOp (Op.memberChange 1 "M") tStarted))

/-- The concrete resting seat stored at position 1 of tRestingW. -/
def seatRestW : SeatState :=
  { id := 1
    memberId := "W"
    status := SeatStatus.rest
    activeSeconds := 65
    restSeconds := 0
    lastActiveStart := none
    lastRestStart := some 65000
    buyInAmount := 200
    transferNote := none
    sessionStart := some "t0"
    selectedForBatch := false }

/-- The concrete seated seat stored at position 1 of tTransfer. -/
def seatAval : SeatState :=
  { id := 1
    memberId := "M1"
    status := SeatStatus.seated
    activeSeconds := 0
    restSeconds := 0
    lastActiveStart := some 0
    lastRestStart := none
    buyInAmount := 0
    transferNote := none
    sessionStart := some "t0"
    selectedForBatch := false }

/-- The concrete idle seat stored at position 2 of tTransfer. -/
def seatBval : SeatState :=
  { id := 2
    memberId := "M1"
    status := SeatStatus.idle
    activeSeconds := 0
    restSeconds := 0
    lastActiveStart := none
    lastRestStart := none
    buyInAmount := 0
    transferNote := none
    sessionStart := none
    selectedForBatch := false }

theorem jsTrim_empty : jsTrim "" = "" := rfl

theorem jsTrim_idem (s : String) : jsTrim (jsTrim s) = jsTrim s := by
  show String.mk (List.rdropWhile isJsWS
      ((List.rdropWhile isJsWS (s.data.dropWhile isJsWS)).dropWhile isJsWS)) = _
  have ht : (s.data.dropWhile isJsWS).dropWhile isJsWS = s.data.dropWhile isJsWS :=
    List.dropWhile_idempotent isJsWS s.data
  have hm : (List.rdropWhile isJsWS (s.data.dropWhile isJsWS)).dropWhile isJsWS
      = List.rdropWhile isJsWS (s.data.dropWhile isJsWS) := by
    obtain ⟨r, hr⟩ := List.rdropWhile_prefix isJsWS (s.data.dropWhile isJsWS)
    cases hmc : List.rdropWhile isJsWS (s.data.dropWhile isJsWS) with
    | nil => simp
    | cons a as =>
      have hta : s.data.dropWhile isJsWS = a :: (as ++ r) := by
        rw [← hr, hmc]; simp
      have hpa : isJsWS a = false := by
        cases hwa : isJsWS a with
        | false => rfl
        | true =>
          exfalso
          rw [hta, List.dropWhile_cons, hwa] at ht
          simp only [if_true] at ht
          have hlen := congrArg List.length ht
          have hle := (List.dropWhile_sublist (l := as ++ r) isJsWS).length_le
          simp only [List.length_cons] at hlen
          omega
      rw [List.dropWhile_cons, hpa]
      simp
  rw [hm, List.rdropWhile_idempotent]
  rfl

/-- Elements from a list with pairwise distinct seat ids are determined by
their id. -/
theorem eq_of_mem_nodup_id {l : List SeatState}
    (hnd : (l.map (fun s => s.id)).Nodup) {a b : SeatState}
    (ha : a ∈ l) (hb : b ∈ l) (hid : a.id = b.id) : a = b := by
  induction l with
  | nil => cases ha
  | cons x xs ih =>
    rw [List.map_cons, List.nodup_cons] at hnd
    rcases List.mem_cons.mp ha with rfl | ha' <;> rcases List.mem_cons.mp hb with rfl | hb'
    · rfl
    · exact absurd (hid ▸ List.mem_map_of_mem (fun s => s.id) hb') hnd.1
    · exact absurd (hid ▸ List.mem_map_of_mem (fun s => s.id) ha') hnd.1
    · exact ih hnd.2 ha' hb'

/-- find? returns the unique element satisfying the predicate. -/
theorem find_eq_some_of_unique {α : Type} {p : α → Bool} {l : List α} {a : α}
    (ha : a ∈ l) (hpa : p a = true) (huniq : ∀ b ∈ l, p b = true → b = a) :
    l.find? p = some a := by
  induction l with
  | nil => cases ha
  | cons x xs ih =>
    rw [List.find?_cons]
    cases hx : p x with
    | true => rw [huniq x (List.mem_cons_self x xs) hx]
    | false =>
      have ha' : a ∈ xs := by
        rcases List.mem_cons.mp ha with rfl | h
        · rw [hpa] at hx; cases hx
        · exact h
      exact ih ha' (fun b hb hpb => huniq b (List.mem_cons_of_mem _ hb) hpb)

/-- A filterMap that hits only the unique seat with a given id produces
exactly the one row built from that seat. -/
theorem filterMap_by_id {β : Type} {l : List SeatState}
    (hnd : (l.map (fun s => s.id)).Nodup) {a : SeatState} (ha : a ∈ l)
    (g : SeatState → Option β) {b : β} (hg : g a = some b) :
    l.filterMap (fun s => if s.id = a.id then g s else none) = [b] := by
  induction l with
  | nil => cases ha
  | cons x xs ih =>
    rw [List.map_cons, List.nodup_cons] at hnd
    rw [List.filterMap_cons]
    rcases List.mem_cons.mp ha with rfl | hmem
    · rw [if_pos rfl, hg]
      have hnone : xs.filterMap (fun s => if s.id = a.id then g s else none) = [] := by
        rw [List.filterMap_eq_nil_iff]
        intro s hs
        have : s.id ≠ a.id := fun heq =>
          hnd.1 (heq ▸ List.mem_map_of_mem (fun s => s.id) hs)
        rw [if_neg this]
      rw [hnone]
    · have hxne : x.id ≠ a.id := fun heq =>
        hnd.1 (heq ▸ List.mem_map_of_mem (fun s => s.id) hmem)
      rw [if_neg hxne]
      exact ih hnd.2 hmem

/-- A filterMap whose function returns none on every element is empty. -/
theorem filterMap_none_of_all {β : Type} {l : List SeatState}
    {g : SeatState → Option β} (h : ∀ s ∈ l, g s = none) : l.filterMap g = [] :=
  List.filterMap_eq_nil_iff.mpr h

theorem mem_dedupFirstAux {x : String} :
    ∀ (seen l : List String), x ∈ dedupFirstAux seen l ↔ (x ∈ l ∧ x ∉ seen) := by
  intro seen l
  induction l generalizing seen with
  | nil => simp [dedupFirstAux]
  | cons y ys ih =>
    unfold dedupFirstAux
    by_cases hy : y ∈ seen
    · rw [if_pos hy, ih]
      constructor
      · rintro ⟨h1, h2⟩; exact ⟨List.mem_cons_of_mem _ h1, h2⟩
      · rintro ⟨h1, h2⟩
        rcases List.mem_cons.mp h1 with rfl | h1'
        · exact absurd hy h2
        · exact ⟨h1', h2⟩
    · rw [if_neg hy]
      constructor
      · intro hmem
        rcases List.mem_cons.mp hmem with rfl | h1
        · exact ⟨List.mem_cons_self _ _, hy⟩
        · rcases (ih (y :: seen)).mp h1 with ⟨h2, h3⟩
          refine ⟨List.mem_cons_of_mem _ h2, fun hc => h3 (List.mem_cons_of_mem _ hc)⟩
      · rintro ⟨h1, h2⟩
        rcases List.mem_cons.mp h1 with rfl | h1'
        · exact List.mem_cons_self _ _
        · by_cases hxy : x = y
          · subst hxy; exact List.mem_cons_self _ _
          · refine List.mem_cons_of_mem _ ((ih (y :: seen)).mpr ⟨h1', ?_⟩)
            intro hc
            rcases List.mem_cons.mp hc with h | h
            · exact hxy h
            · exact h2 h

theorem nodup_dedupFirstAux : ∀ (seen l : List String), (dedupFirstAux seen l).Nodup := by
  intro seen l
  induction l generalizing seen with
  | nil => simp [dedupFirstAux]
  | cons y ys ih =>
    unfold dedupFirstAux
    by_cases hy : y ∈ seen
    · rw [if_pos hy]; exact ih seen
    · rw [if_neg hy]
      rw [List.nodup_cons]
      refine ⟨fun hc => ?_, ih (y :: seen)⟩
      exact ((mem_dedupFirstAux _ _).mp hc).2 (List.mem_cons_self _ _)

theorem mem_dedupFirst {x : String} {l : List String} : x ∈ dedupFirst l ↔ x ∈ l := by
  unfold dedupFirst
  rw [mem_dedupFirstAux]
  simp

theorem length_dedupFirst (l : List String) : (dedupFirst l).length = l.dedup.length := by
  have h1 : (dedupFirst l).toFinset.card = (dedupFirst l).length :=
    List.toFinset_card_of_nodup (nodup_dedupFirstAux [] l)
  have h2 : (dedupFirst l).toFinset = l.toFinset := by
    apply Finset.ext
    intro x
    rw [List.mem_toFinset, List.mem_toFinset, mem_dedupFirst]
  rw [← h1, h2, List.card_toFinset]

theorem foldl_buyin_sum (l : List SessionRow) :
    ∀ a : Int, l.foldl (fun sum s => s.buyInAmount.getD 0 + sum) a
      = (l.map (fun s => s.buyInAmount.getD 0)).sum + a := by
  induction l with
  | nil => intro a; simp
  | cons r rs ih =>
    intro a
    rw [List.foldl_cons, ih, List.map_cons, List.sum_cons]
    ring

theorem forall_mem_map {P : SeatState → Prop} {f : SeatState → SeatState} {l : List SeatState}
    (hf : ∀ s ∈ l, P s → P (f s)) (hl : ∀ s ∈ l, P s) : ∀ s ∈ l.map f, P s := by
  intro s hs
  rcases List.mem_map.mp hs with ⟨a, ha, rfl⟩
  exact hf a ha (hl a ha)

theorem seatInv_initial (id : Nat) :
    seatLifecycleInv (createInitialSeat id) ∧ seatMemberTrimInv (createInitialSeat id) :=
  ⟨Or.inl ⟨rfl, rfl, rfl⟩, rfl⟩

theorem seatInv_clearSeat (s : SeatState) :
    seatLifecycleInv (clearSeat s) ∧ seatMemberTrimInv (clearSeat s) :=
  ⟨Or.inl ⟨rfl, rfl, rfl⟩, rfl⟩

theorem seatInv_seatUpFold {s : SeatState} (nowMs : Int) (nowStr : String)
    (h : seatLifecycleInv s ∧ seatMemberTrimInv s) :
    seatLifecycleInv (seatUpFoldUpdate s nowMs nowStr)
      ∧ seatMemberTrimInv (seatUpFoldUpdate s nowMs nowStr) := by
  unfold seatUpFoldUpdate
  split
  · exact h
  · exact ⟨Or.inr (Or.inl ⟨rfl, by simp, rfl⟩), h.2⟩

/-- Preservation of the per seat invariants by every operation. -/
theorem seats_inv_applyOp (op : Op) (tbl : TableState)
    (h : ∀ s ∈ tbl.seats, seatLifecycleInv s ∧ seatMemberTrimInv s) :
    ∀ s ∈ (applyOp op tbl).seats, seatLifecycleInv s ∧ seatMemberTrimInv s := by
  cases op with
  | startOrResume nowMs nowStr =>
    simp only [applyOp, handleStartOrResume]
    split
    · exact h
    · exact h
  | pause nowMs =>
    simp only [applyOp, handlePause]
    split
    · exact h
    · split
      · exact h
      · exact h
  | stop nowMs nowStr =>
    simp only [applyOp, handleStop]
    split
    · exact h
    · exact h
  | resetTable c =>
    simp only [applyOp, handleResetTable]
    split
    · intro s hs
      rcases List.mem_map.mp hs with ⟨i, _, rfl⟩
      exact seatInv_initial (i + 1)
    · exact h
  | blindsChange v =>
    exact h
  | toggleBatchSeat seatId =>
    simp only [applyOp, handleToggleBatchSeat]
    refine forall_mem_map ?_ h
    intro s _ hs
    split
    · exact hs
    · exact hs
  | memberChange seatId v =>
    simp only [applyOp, handleMemberChange]
    refine forall_mem_map ?_ h
    intro s _ hs
    split
    · exact ⟨hs.1, (jsTrim_idem v).symm⟩
    · exact hs
  | seatUp seatId c nowMs nowStr dateStr =>
    simp only [applyOp, handleSeatUp]
    split
    · exact h
    · split
      · exact h
      · split
        · exact h
        · split
          · split
            · refine forall_mem_map ?_ h
              intro s _ hs
              split
              · exact seatInv_seatUpFold nowMs nowStr hs
              · exact hs
            · split
              · exact h
              · refine forall_mem_map ?_ (forall_mem_map ?_ h)
                · intro s _ hs
                  split
                  · exact ⟨Or.inr (Or.inl ⟨rfl, by simp, rfl⟩), hs.2⟩
                  · exact hs
                · intro s _ hs
                  split
                  · exact seatInv_clearSeat s
                  · exact hs
          · refine forall_mem_map ?_ h
            intro s _ hs
            split
            · exact seatInv_seatUpFold nowMs nowStr hs
            · exact hs
  | rest seatId nowMs =>
    simp only [applyOp, handleRest]
    refine forall_mem_map ?_ h
    intro s _ hs
    split
    · split
      · exact ⟨Or.inr (Or.inr ⟨rfl, by simp, rfl⟩), hs.2⟩
      · exact hs
    · exact hs
  | leave seatId nowMs nowStr dateStr =>
    simp only [applyOp, handleLeave]
    refine forall_mem_map ?_ h
    intro s _ hs
    split
    · exact seatInv_clearSeat s
    · exact hs
  | addBuyIn seatId promptResult =>
    simp only [applyOp, handleAddBuyIn]
    split
    · exact h
    · split
      · exact h
      · exact h
      · refine forall_mem_map ?_ h
        intro s _ hs
        split
        · exact hs
        · exact hs
  | batchSeat promptResult nowMs nowStr =>
    simp only [applyOp, handleBatchSeat]
    split
    · exact h
    · split
      · exact h
      · split
        · exact h
        · split
          · exact h
          · split
            · exact h
            · exact h
            · refine forall_mem_map ?_ h
              intro s _ hs
              split
              · exact hs
              · split
                · exact hs
                · exact ⟨Or.inr (Or.inl ⟨rfl, by simp, rfl⟩), hs.2⟩
  | batchLeave c nowMs nowStr dateStr =>
    simp only [applyOp, handleBatchLeave]
    split
    · exact h
    · split
      · exact h
      · refine forall_mem_map ?_ h
        intro s _ hs
        split
        · exact seatInv_clearSeat s
        · exact hs

/-- A row produced by appendSessionRow from a trim invariant seat satisfies
the row invariant. -/
theorem rowInv_appendSessionRow {tbl : TableState} {seat : SeatState}
    {endStr dateStr : String} {nowMs : Int} {r : SessionRow}
    (htrim : seatMemberTrimInv seat)
    (h : appendSessionRow tbl seat endStr dateStr nowMs = some r) : rowInv r := by
  unfold appendSessionRow at h
  split at h
  · cases h
  · split at h
    · cases h
    · rename_i st hcond
      cases h
      refine ⟨?_, ?_, htrim⟩
      · intro hnote
        cases hts : seat.transferNote with
        | none => exact absurd hts hnote
        | some note => simp [hts]
      · intro hme
        exact hcond (Or.inl hme)

/-- Preservation of the row invariants by every operation. -/
theorem rows_inv_applyOp (op : Op) (tbl : TableState)
    (hseats : ∀ s ∈ tbl.seats, seatLifecycleInv s ∧ seatMemberTrimInv s)
    (hrows : ∀ r ∈ tbl.sessions, rowInv r) :
    ∀ r ∈ (applyOp op tbl).sessions, rowInv r := by
  cases op with
  | startOrResume nowMs nowStr =>
    simp only [applyOp, handleStartOrResume]
    split
    · exact hrows
    · exact hrows
  | pause nowMs =>
    simp only [applyOp, handlePause]
    split
    · exact hrows
    · split
      · exact hrows
      · exact hrows
  | stop nowMs nowStr =>
    simp only [applyOp, handleStop]
    split
    · exact hrows
    · exact hrows
  | resetTable c =>
    simp only [applyOp, handleResetTable]
    split
    · intro r hr
      cases hr
    · exact hrows
  | blindsChange v => exact hrows
  | toggleBatchSeat seatId => exact hrows
  | memberChange seatId v => exact hrows
  | seatUp seatId c nowMs nowStr dateStr =>
    simp only [applyOp, handleSeatUp]
    split
    · exact hrows
    · split
      · exact hrows
      · split
        · exact hrows
        · split
          · split
            · exact hrows
            · split
              · exact hrows
              · intro r hr
                rcases List.mem_append.mp hr with hmem | hmem
                · exact hrows r hmem
                · rcases List.mem_filterMap.mp hmem with ⟨s, hs, hgs⟩
                  split at hgs
                  · exact rowInv_appendSessionRow (hseats s hs).2 hgs
                  · cases hgs
          · exact hrows
  | rest seatId nowMs => exact hrows
  | leave seatId nowMs nowStr dateStr =>
    simp only [applyOp, handleLeave]
    intro r hr
    rcases List.mem_append.mp hr with hmem | hmem
    · exact hrows r hmem
    · rcases List.mem_filterMap.mp hmem with ⟨s, hs, hgs⟩
      split at hgs
      · exact rowInv_appendSessionRow (hseats s hs).2 hgs
      · cases hgs
  | addBuyIn seatId promptResult =>
    simp only [applyOp, handleAddBuyIn]
    split
    · exact hrows
    · split
      · exact hrows
      · exact hrows
      · exact hrows
  | batchSeat promptResult nowMs nowStr =>
    simp only [applyOp, handleBatchSeat]
    split
    · exact hrows
    · split
      · exact hrows
      · split
        · exact hrows
        · split
          · exact hrows
          · split
            · exact hrows
            · exact hrows
            · exact hrows
  | batchLeave c nowMs nowStr dateStr =>
    simp only [applyOp, handleBatchLeave]
    split
    · exact hrows
    · split
      · exact hrows
      · intro r hr
        rcases List.mem_append.mp hr with hmem | hmem
        · exact hrows r hmem
        · rcases List.mem_filterMap.mp hmem with ⟨s, hs, hgs⟩
          split at hgs
          · exact rowInv_appendSessionRow (hseats s hs).2 hgs
          · cases hgs

/-- Preservation of the clock anchor invariant by every operation. -/
theorem clock_inv_applyOp (op : Op) (tbl : TableState)
    (h : tbl.isRunning = true → tbl.lastStartTime ≠ none) :
    (applyOp op tbl).isRunning = true → (applyOp op tbl).lastStartTime ≠ none := by
  cases op with
  | startOrResume nowMs nowStr =>
    simp only [applyOp, handleStartOrResume]
    split
    · exact h
    · intro _
      simp
  | pause nowMs =>
    simp only [applyOp, handlePause]
    split
    · exact h
    · split
      · intro hc
        cases hc
      · exact h
  | stop nowMs nowStr =>
    simp only [applyOp, handleStop]
    split
    · exact h
    · intro hc
      cases hc
  | resetTable c =>
    simp only [applyOp, handleResetTable]
    split
    · intro hc
      cases hc
    · exact h
  | blindsChange v => exact h
  | toggleBatchSeat seatId => exact h
  | memberChange seatId v => exact h
  | seatUp seatId c nowMs nowStr dateStr =>
    simp only [applyOp, handleSeatUp]
    split
    · exact h
    · split
      · exact h
      · split
        · exact h
        · split
          · split
            · exact h
            · split
              · exact h
              · exact h
          · exact h
  | rest seatId nowMs => exact h
  | leave seatId nowMs nowStr dateStr => exact h
  | addBuyIn seatId promptResult =>
    simp only [applyOp, handleAddBuyIn]
    split
    · exact h
    · split
      · exact h
      · exact h
      · exact h
  | batchSeat promptResult nowMs nowStr =>
    simp only [applyOp, handleBatchSeat]
    split
    · exact h
    · split
      · exact h
      · split
        · exact h
        · split
          · exact h
          · split
            · exact h
            · exact h
            · exact h
  | batchLeave c nowMs nowStr dateStr =>
    simp only [applyOp, handleBatchLeave]
    split
    · exact h
    · split
      · exact h
      · exact h

theorem tableInv_initial (id : Nat) : tableInv (createInitialTable id) := by
  refine ⟨?_, ?_, ?_⟩
  · intro s hs
    rcases List.mem_map.mp hs with ⟨i, _, rfl⟩
    exact seatInv_initial (i + 1)
  · intro r hr
    cases hr
  · intro hc
    cases hc

/-- Every reachable table satisfies the combined invariant. -/
theorem reachable_tableInv {tbl : TableState} (h : Reachable tbl) : tableInv tbl := by
  induction h with
  | init id => exact tableInv_initial id
  | step op hr ih =>
    exact ⟨seats_inv_applyOp op _ ih.1, rows_inv_applyOp op _ ih.1 ih.2.1,
      clock_inv_applyOp op _ ih.2.2⟩

theorem sum_amounts_filter_transfer {l : List SessionRow}
    (h : ∀ r ∈ l, r.transferNote ≠ none → r.buyInAmount = none) :
    (l.map (fun r => r.buyInAmount.getD 0)).sum
      = ((l.filter (fun r => r.transferNote.isNone)).map (fun r => r.buyInAmount.getD 0)).sum := by
  induction l with
  | nil => simp
  | cons r rs ih =>
    have hrs : ∀ x ∈ rs, x.transferNote ≠ none → x.buyInAmount = none :=
      fun x hx => h x (List.mem_cons_of_mem _ hx)
    rw [List.map_cons, List.sum_cons, List.filter_cons]
    cases hn : r.transferNote with
    | none => simp only [Option.isNone_none, if_true, List.map_cons, List.sum_cons, ih hrs]
    | some note =>
      have hamt : r.buyInAmount = none := h r (List.mem_cons_self _ _) (by rw [hn]; simp)
      rw [hamt]
      simp only [Option.getD_none, Option.isNone_some, Bool.false_eq_true, if_false, ih hrs]
      omega

/-- A seat with an empty member id or no session start yields no row. -/
theorem appendSessionRow_none {tbl : TableState} {seat : SeatState}
    {endStr dateStr : String} {nowMs : Int}
    (h : seat.memberId = "" ∨ seat.sessionStart = none) :
    appendSessionRow tbl seat endStr dateStr nowMs = none := by
  unfold appendSessionRow
  split
  · rfl
  · rename_i st hsome
    rcases h with hm | hs
    · rw [if_pos (Or.inl hm)]
    · rw [hs] at hsome; cases hsome

/-- C6: the elapsed projection returns elapsedSeconds for a stopped table,
elapsedSeconds plus the clamped floored second delta for a running table,
and a negative wall clock delta contributes zero. The projection is a pure
function of the table and the timestamp. -/
theorem elapsed_projection_correct (tbl : TableState) (nowMs : Int) :
    (tbl.isRunning = false → getTableElapsedSeconds tbl nowMs = tbl.elapsedSeconds)
  ∧ (∀ t, tbl.isRunning = true → tbl.lastStartTime = some t →
      getTableElapsedSeconds tbl nowMs
        = tbl.elapsedSeconds + max 0 ((nowMs - t).fdiv 1000))
  ∧ (∀ t, tbl.isRunning = true → tbl.lastStartTime = some t → nowMs ≤ t →
      getTableElapsedSeconds tbl nowMs = tbl.elapsedSeconds) := by
  refine ⟨?_, ?_, ?_⟩
  · intro hr
    simp [getTableElapsedSeconds, hr]
  · intro t hr hl
    simp [getTableElapsedSeconds, hr, hl]
  · intro t hr hl hle
    have hd : (nowMs - t).fdiv 1000 ≤ 0 := by
      rw [Int.fdiv_eq_ediv _ (by norm_num)]
      omega
    have hmax : max 0 ((nowMs - t).fdiv 1000) = 0 := max_eq_left hd
    simp [getTableElapsedSeconds, hr, hl, hmax]

/-- Witness for C6 on a concrete running table: positive delta floors to
seconds, negative delta contributes zero. -/
theorem elapsed_projection_correct_witness :
    getTableElapsedSeconds tStarted 7100 = tStarted.elapsedSeconds + max 0 ((7100 - 100 : Int).fdiv 1000)
  ∧ getTableElapsedSeconds tStarted 50 = tStarted.elapsedSeconds := by
  constructor
  · exact (elapsed_projection_correct tStarted 7100).2.1 100 (by decide) (by decide)
  · exact (elapsed_projection_correct tStarted 50).2.2 100 (by decide) (by decide) (by decide)

/-- C9: add buy in adds the clamped amount max 0 amount to the addressed
seat whatever its status when the prompt yields a finite number, and leaves
the table unchanged when the prompt is cancelled or yields a non finite
number. -/
theorem addBuyIn_clamps (tbl : TableState) (seatId : Nat)
    (promptResult : Option JsNumber) (q : Int) :
    (promptResult = some JsNumber.nan → handleAddBuyIn tbl seatId promptResult = tbl)
  ∧ (promptResult = none → handleAddBuyIn tbl seatId promptResult = tbl)
  ∧ ((tbl.seats.find? (fun s => decide (s.id = seatId))).isSome = true →
      promptResult = some (JsNumber.finite q) →
      handleAddBuyIn tbl seatId promptResult =
        { tbl with seats := tbl.seats.map (fun s =>
            if s.id = seatId then { s with buyInAmount := s.buyInAmount + max 0 q }
            else s) }) := by
  refine ⟨?_, ?_, ?_⟩
  · intro hp
    subst hp
    unfold handleAddBuyIn
    split
    · rfl
    · rfl
  · intro hp
    subst hp
    unfold handleAddBuyIn
    split
    · rfl
    · rfl
  · intro hfind hp
    subst hp
    unfold handleAddBuyIn
    split
    · rename_i hnone
      rw [hnone] at hfind
      cases hfind
    · rfl

/-- Witness for C9 at a concrete seat. -/
theorem addBuyIn_clamps_witness :
    handleAddBuyIn (createInitialTable 1) 1 (some (JsNumber.finite 50)) =
      { createInitialTable 1 with seats := (createInitialTable 1).seats.map (fun s =>
          if s.id = 1 then { s with buyInAmount := s.buyInAmount + max 0 50 } else s) } :=
  (addBuyIn_clamps (createInitialTable 1) 1 (some (JsNumber.finite 50)) 50).2.2
    (by decide) rfl

/-- C3: pause is rejected, changing nothing, while any seat is seated;
resting seats do not block it. With no seated seat it is a no-op on a
stopped table and freezes the clock on a running one. The reachability
hypothesis supplies the invariant that a running table has an anchor. -/
theorem pause_requires_no_seated (tbl : TableState) (hr : Reachable tbl) (nowMs : Int) :
    (hasActivePlayers tbl = true → handlePause tbl nowMs = tbl)
  ∧ (hasActivePlayers tbl = false → tbl.isRunning = false → handlePause tbl nowMs = tbl)
  ∧ (hasActivePlayers tbl = false → tbl.isRunning = true →
      handlePause tbl nowMs =
        { tbl with
          isRunning := false
          lastStartTime := none
          elapsedSeconds := getTableElapsedSeconds tbl nowMs }) := by
  refine ⟨?_, ?_, ?_⟩
  · intro ha
    simp [handlePause, ha]
  · intro ha hrun
    simp [handlePause, ha, hrun]
  · intro ha hrun
    have hlast := (reachable_tableInv hr).2.2 hrun
    obtain ⟨t, ht⟩ : ∃ t, tbl.lastStartTime = some t := by
      cases hl : tbl.lastStartTime with
      | none => exact absurd hl hlast
      | some t => exact ⟨t, rfl⟩
    simp [handlePause, ha, hrun, ht]

/-- Witness for C3: pausing a freshly started table freezes the projected
elapsed seconds. -/
theorem pause_requires_no_seated_witness :
    handlePause tStarted 7100 =
      { tStarted with
        isRunning := false
        lastStartTime := none
        elapsedSeconds := getTableElapsedSeconds tStarted 7100 } :=
  (pause_requires_no_seated tStarted
    (Reachable.step (Op.startOrResume 100 "o") (Reachable.init 1)) 7100).2.2
    (by decide) (by decide)

/-- C4: every reachable table satisfies the seat lifecycle invariant: each
seat is idle with no anchors, seated with an active anchor and no rest
anchor, or resting with a rest anchor and no active anchor. The three cases
are mutually exclusive because the statuses are distinct constructors. -/
theorem seat_lifecycle_exclusive (tbl : TableState) (hr : Reachable tbl) :
    ∀ s ∈ tbl.seats, seatLifecycleInv s :=
  fun s hs => ((reachable_tableInv hr).1 s hs).1

/-- Witness for C4 at the concrete seated seat of a reachable table after
four operations. -/
theorem seat_lifecycle_exclusive_witness :
    seatLifecycleInv
      { id := 1
        memberId := ""
        status := SeatStatus.seated
        activeSeconds := 0
        restSeconds := 0
        lastActiveStart := some 0
        lastRestStart := none
        buyInAmount := 0
        transferNote := none
        sessionStart := some "s0"
        selectedForBatch := false } :=
  seat_lifecycle_exclusive tGhostSeated
    (Reachable.step (Op.memberChange 1 "")
      (Reachable.step (Op.seatUp 1 true 0 "s0" "d")
        (Reachable.step (Op.memberChange 1 "M")
          (Reachable.step (Op.startOrResume 100 "o") (Reachable.init 1)))))
    _ (by decide)

/-- C10: a seated or resting seat with an empty member id or missing session
start is cleared by leave and batch leave without any Session Record, so its
accumulated session data is discarded silently; such seats are reachable
because the member id editor overwrites the member id of a seat in any
status with the trimmed, possibly empty, input. -/
theorem degenerate_seat_silent_discard :
    (∀ (tbl : TableState) (seatId : Nat) (nowMs : Int) (nowStr dateStr : String),
      (∀ s ∈ tbl.seats, s.id = seatId → s.memberId = "" ∨ s.sessionStart = none) →
        (handleLeave tbl seatId nowMs nowStr dateStr).sessions = tbl.sessions ∧
        (handleLeave tbl seatId nowMs nowStr dateStr).seats
          = tbl.seats.map (fun s => if s.id = seatId then clearSeat s else s))
  ∧ (∀ (tbl : TableState) (nowMs : Int) (nowStr dateStr : String),
      (tbl.seats.filter (fun s =>
        s.selectedForBatch && decide (s.status ≠ SeatStatus.idle))).length ≠ 0 →
      (∀ s ∈ tbl.seats, s.selectedForBatch = true → s.status ≠ SeatStatus.idle →
        s.memberId = "" ∨ s.sessionStart = none) →
        (handleBatchLeave tbl true nowMs nowStr dateStr).sessions = tbl.sessions ∧
        (handleBatchLeave tbl true nowMs nowStr dateStr).seats
          = tbl.seats.map (fun s =>
            if s.selectedForBatch = true ∧ s.status ≠ SeatStatus.idle then clearSeat s
            else s))
  ∧ (∀ (tbl : TableState) (seatId : Nat) (v : String),
      (handleMemberChange tbl seatId v).seats
        = tbl.seats.map (fun s => if s.id = seatId then { s with memberId := jsTrim v } else s))
  ∧ (∃ tbl, Reachable tbl ∧ ∃ s ∈ tbl.seats,
      s.status = SeatStatus.seated ∧ s.memberId = "" ∧ s.sessionStart ≠ none) := by
  refine ⟨?_, ?_, ?_, ?_⟩
  · intro tbl seatId nowMs nowStr dateStr h
    constructor
    · show tbl.sessions ++ _ = tbl.sessions
      rw [filterMap_none_of_all, List.append_nil]
      intro s hs
      split
      · rename_i hid
        exact appendSessionRow_none (h s hs hid)
      · rfl
    · rfl
  · intro tbl nowMs nowStr dateStr hsel h
    have hred : handleBatchLeave tbl true nowMs nowStr dateStr =
        { tbl with
          seats := tbl.seats.map (fun s =>
            if s.selectedForBatch = true ∧ s.status ≠ SeatStatus.idle then clearSeat s else s)
          sessions := tbl.sessions ++ tbl.seats.filterMap (fun s =>
            if s.selectedForBatch = true ∧ s.status ≠ SeatStatus.idle then
              appendSessionRow tbl s nowStr dateStr nowMs
            else none) } := by
      simp only [handleBatchLeave]
      rw [if_neg hsel, if_neg (fun hc => Bool.noConfusion hc)]
    rw [hred]
    constructor
    · show tbl.sessions ++ _ = tbl.sessions
      rw [filterMap_none_of_all, List.append_nil]
      intro s hs
      split
      · rename_i hc
        exact appendSessionRow_none (h s hs hc.1 hc.2)
      · rfl
    · rfl
  · intro tbl seatId v
    rfl
  · refine ⟨tGhostSeated, ?_, ?_⟩
    · exact Reachable.step (Op.memberChange 1 "")
        (Reachable.step (Op.seatUp 1 true 0 "s0" "d")
          (Reachable.step (Op.memberChange 1 "M")
            (Reachable.step (Op.startOrResume 100 "o") (Reachable.init 1))))
    · decide

/-- Witness for C10: leaving the seated seat with an erased member id
appends nothing to the ledger, and the same holds for a confirmed batch
leave after selecting that seat. -/
theorem degenerate_seat_silent_discard_witness :
    (handleLeave tSeatedNoMember 1 5000 "e" "d").sessions = tSeatedNoMember.sessions
  ∧ (handleBatchLeave (handleToggleBatchSeat tSeatedNoMember 1) true 5000 "e" "d").sessions
      = (handleToggleBatchSeat tSeatedNoMember 1).sessions :=
  ⟨(degenerate_seat_silent_discard.1 tSeatedNoMember 1 5000 "e" "d" (by decide)).1,
   (degenerate_seat_silent_discard.2.1 (handleToggleBatchSeat tSeatedNoMember 1) 5000 "e" "d"
     (by decide) (by decide)).1⟩

/-- C8: on every reachable table the computed summary totals agree with the
specification: total buy in is the sum of the numeric amounts of the rows
without a transfer annotation, and the unique member count is the number of
distinct non empty member ids among the Session Records. -/
theorem summary_totals_correct (tbl : TableState) (hr : Reachable tbl) (nowMs : Int) :
    (computeTableSummary tbl nowMs).totalBuyIn = specTotalBuyIn tbl.sessions
  ∧ (computeTableSummary tbl nowMs).uniqueMembers = specUniqueMembers tbl.sessions := by
  have hrows := (reachable_tableInv hr).2.1
  constructor
  · show tbl.sessions.foldl (fun sum s => s.buyInAmount.getD 0 + sum) 0 = _
    rw [foldl_buyin_sum, add_zero,
      sum_amounts_filter_transfer (fun r h => (hrows r h).1)]
    rfl
  · show ((dedupFirst (tbl.sessions.map (fun s => s.memberId))).filter
      (fun id => decide (jsTrim id ≠ ""))).length = _
    have hfilter : (dedupFirst (tbl.sessions.map (fun s => s.memberId))).filter
        (fun id => decide (jsTrim id ≠ ""))
        = dedupFirst (tbl.sessions.map (fun s => s.memberId)) := by
      rw [List.filter_eq_self]
      intro m hm
      rcases List.mem_map.mp (mem_dedupFirst.mp hm) with ⟨r, hrr, rfl⟩
      have h1 := (hrows r hrr).2.1
      have h2 := (hrows r hrr).2.2
      simp [← h2, h1]
    have hspec : (tbl.sessions.map (fun r => r.memberId)).filter (fun m => m != "")
        = tbl.sessions.map (fun r => r.memberId) := by
      rw [List.filter_eq_self]
      intro m hm
      rcases List.mem_map.mp hm with ⟨r, hrr, rfl⟩
      simpa using (hrows r hrr).2.1
    rw [hfilter, length_dedupFirst]
    unfold specUniqueMembers
    rw [hspec]

/-- Witness for C8 on a reachable table whose ledger holds one row. -/
theorem summary_totals_correct_witness :
    (computeTableSummary tAfterLeave 20000).totalBuyIn = specTotalBuyIn tAfterLeave.sessions
  ∧ (computeTableSummary tAfterLeave 20000).uniqueMembers = specUniqueMembers tAfterLeave.sessions :=
  summary_totals_correct tAfterLeave
    (Reachable.step (Op.leave 1 10000 "e" "d")
      (Reachable.step (Op.seatUp 1 true 0 "s0" "d")
        (Reachable.step (Op.memberChange 1 "M")
          (Reachable.step (Op.startOrResume 100 "o") (Reachable.init 1))))) 20000

/-- Counterexample to C5 as stated: a confirmed table reset, one of the
cited operations, replaces a one row ledger with an empty one, so the prior
ledger is not a prefix of the new one and the length decreases. -/
theorem ledger_append_only_counterexample :
    (applyOp (Op.resetTable true) tLedgerOne).sessions.length = 0
  ∧ tLedgerOne.sessions.length = 1 := by decide

/-- C5 amended: every operation other than a confirmed table reset leaves
the prior ledger as a prefix of the resulting ledger, so its length is non
decreasing; a confirmed reset exports and then replaces the ledger with an
empty one. -/
theorem ledger_append_only_amended (op : Op) (tbl : TableState)
    (hop : op ≠ Op.resetTable true) :
    (∃ l, (applyOp op tbl).sessions = tbl.sessions ++ l)
  ∧ tbl.sessions.length ≤ (applyOp op tbl).sessions.length := by
  have hpre : ∃ l, (applyOp op tbl).sessions = tbl.sessions ++ l := by
    cases op with
    | startOrResume nowMs nowStr =>
      refine ⟨[], ?_⟩
      simp only [applyOp, handleStartOrResume]
      split
      · simp
      · simp
    | pause nowMs =>
      refine ⟨[], ?_⟩
      simp only [applyOp, handlePause]
      split
      · simp
      · split
        · simp
        · simp
    | stop nowMs nowStr =>
      refine ⟨[], ?_⟩
      simp only [applyOp, handleStop]
      split
      · simp
      · simp
    | resetTable c =>
      cases c with
      | true => exact absurd rfl hop
      | false => exact ⟨[], by simp [applyOp, handleResetTable]⟩
    | blindsChange v => exact ⟨[], by simp [applyOp, handleBlindsChange]⟩
    | toggleBatchSeat seatId => exact ⟨[], by simp [applyOp, handleToggleBatchSeat]⟩
    | memberChange seatId v => exact ⟨[], by simp [applyOp, handleMemberChange]⟩
    | seatUp seatId c nowMs nowStr dateStr =>
      simp only [applyOp, handleSeatUp]
      split
      · exact ⟨[], by simp⟩
      · split
        · exact ⟨[], by simp⟩
        · split
          · exact ⟨[], by simp⟩
          · split
            · split
              · exact ⟨[], by simp⟩
              · split
                · exact ⟨[], by simp⟩
                · exact ⟨_, rfl⟩
            · exact ⟨[], by simp⟩
    | rest seatId nowMs => exact ⟨[], by simp [applyOp, handleRest]⟩
    | leave seatId nowMs nowStr dateStr => exact ⟨_, rfl⟩
    | addBuyIn seatId promptResult =>
      simp only [applyOp, handleAddBuyIn]
      split
      · exact ⟨[], by simp⟩
      · split
        · exact ⟨[], by simp⟩
        · exact ⟨[], by simp⟩
        · exact ⟨[], by simp⟩
    | batchSeat promptResult nowMs nowStr =>
      simp only [applyOp, handleBatchSeat]
      split
      · exact ⟨[], by simp⟩
      · split
        · exact ⟨[], by simp⟩
        · split
          · exact ⟨[], by simp⟩
          · split
            · exact ⟨[], by simp⟩
            · split
              · exact ⟨[], by simp⟩
              · exact ⟨[], by simp⟩
              · exact ⟨[], by simp⟩
    | batchLeave c nowMs nowStr dateStr =>
      simp only [applyOp, handleBatchLeave]
      split
      · exact ⟨[], by simp⟩
      · split
        · exact ⟨[], by simp⟩
        · exact ⟨_, rfl⟩
  refine ⟨hpre, ?_⟩
  obtain ⟨l, hl⟩ := hpre
  rw [hl]
  simp

/-- Witness for C5 amended: a leave on a non idle seat extends the ledger. -/
theorem ledger_append_only_amended_witness :
    (∃ l, (applyOp (Op.leave 1 125000 "e125" "d") tRestingW).sessions
      = tRestingW.sessions ++ l)
  ∧ tRestingW.sessions.length
      ≤ (applyOp (Op.leave 1 125000 "e125" "d") tRestingW).sessions.length :=
  ledger_append_only_amended (Op.leave 1 125000 "e125" "d") tRestingW (by decide)

/-- Counterexample to C2 as stated: leave on an idle seat with a typed
member id is not a no-op (the member id and batch selection are cleared),
and leave on a seated seat with a sessionStart but an empty member id
appends no Session Record. -/
theorem leave_idle_counterexample :
    ((handleLeave tIdleTyped 1 0 "e" "d").seats.map (fun s => s.memberId)
      ≠ tIdleTyped.seats.map (fun s => s.memberId))
  ∧ tIdleTyped.seats.any (fun s =>
      decide (s.id = 1 ∧ s.status = SeatStatus.idle ∧ s.memberId = "X")) = true
  ∧ (handleLeave tSeatedNoMember 1 0 "e" "d").sessions = []
  ∧ tSeatedNoMember.seats.any (fun s =>
      decide (s.id = 1 ∧ s.status = SeatStatus.seated
        ∧ s.sessionStart = some "t0")) = true := by decide

/-- C2 amended: leave always resets the addressed seat to the idle defaults
(clearing member id, buy in, annotation and batch selection, so it is a true
no-op on an idle seat only when those fields are already at their defaults);
it appends no Session Record when the member id is empty or the session
start is missing, and appends exactly one Session Record capturing the
projected active and rest seconds, the buy in and the transfer annotation
when the seat has a non empty member id and a session start. -/
theorem leave_amended (tbl : TableState) (seatId : Nat) (nowMs : Int)
    (nowStr dateStr : String) :
    ((handleLeave tbl seatId nowMs nowStr dateStr).seats
      = tbl.seats.map (fun s => if s.id = seatId then clearSeat s else s))
  ∧ ((∀ s ∈ tbl.seats, s.id = seatId → s.memberId = "" ∨ s.sessionStart = none) →
      (handleLeave tbl seatId nowMs nowStr dateStr).sessions = tbl.sessions)
  ∧ (∀ seat ∈ tbl.seats, seat.id = seatId →
      (tbl.seats.map (fun s => s.id)).Nodup →
      seat.memberId ≠ "" → ∀ st, seat.sessionStart = some st → st ≠ "" →
      ∃ row, appendSessionRow tbl seat nowStr dateStr nowMs = some row ∧
        (handleLeave tbl seatId nowMs nowStr dateStr).sessions
          = tbl.sessions ++ [row] ∧
        row.seatId = seat.id ∧ row.memberId = seat.memberId ∧
        row.activeSeconds = getSeatActiveSeconds seat nowMs ∧
        row.restSeconds = getSeatRestSeconds seat nowMs ∧
        row.endTime = nowStr ∧ row.transferNote = seat.transferNote ∧
        (seat.transferNote = none → row.buyInAmount = some seat.buyInAmount)) := by
  refine ⟨rfl, ?_, ?_⟩
  · intro h
    show tbl.sessions ++ _ = tbl.sessions
    rw [filterMap_none_of_all, List.append_nil]
    intro s hs
    split
    · rename_i hid
      exact appendSessionRow_none (h s hs hid)
    · rfl
  · intro seat hseat hid hnodup hmem st hst hstne
    subst hid
    have happ : appendSessionRow tbl seat nowStr dateStr nowMs = some
        { date := dateStr
          tableId := tbl.id
          tableName := tbl.name
          seatId := seat.id
          memberId := seat.memberId
          startTime := st
          endTime := nowStr
          activeSeconds := getSeatActiveSeconds seat nowMs
          restSeconds := getSeatRestSeconds seat nowMs
          durationHMS := formatHMS (getSeatActiveSeconds seat nowMs)
          buyInDisplay :=
            match seat.transferNote with
            | some note => note
            | none => toString seat.buyInAmount
          buyInAmount :=
            match seat.transferNote with
            | some _ => none
            | none => some seat.buyInAmount
          transferNote := seat.transferNote } := by
      unfold appendSessionRow
      simp only [hst]
      rw [if_neg (fun hor => Or.elim hor hmem hstne)]
    refine ⟨_, happ, ?_, rfl, rfl, rfl, rfl, rfl, rfl, ?_⟩
    · show tbl.sessions ++ _ = tbl.sessions ++ [_]
      congr 1
      exact filterMap_by_id hnodup hseat _ happ
    · intro hnone
      simp [hnone]

/-- Witness for C2 amended: vacating the resting seat of tRestingW appends
exactly one Session Record. -/
theorem leave_amended_witness :
    (handleLeave tRestingW 1 125000 "e125" "d").sessions.length
      = tRestingW.sessions.length + 1 := by
  obtain ⟨row, happ, hsess, hrest⟩ := (leave_amended tRestingW 1 125000 "e125" "d").2.2
    seatRestW (by decide) rfl (by decide) (by decide) "t0" rfl (by decide)
  rw [hsess]
  simp

/-- Counterexample to C7 as stated: with member M seated at both seats 1 and
2 (reachable by editing a member id), batch seating selected seat 1 passes
the duplicate check, because the first seated or rest seat found for M is
seat 1 itself, and the batch is applied; and a prompted negative amount adds
nothing instead of the prompted amount. -/
theorem batch_seat_counterexample :
    tDupSeated.seats.any (fun s =>
      decide (s.id = 1 ∧ s.selectedForBatch = true ∧ s.memberId = "M"
        ∧ s.status = SeatStatus.seated)) = true
  ∧ tDupSeated.seats.any (fun s =>
      decide (s.id = 2 ∧ s.memberId = "M" ∧ s.status = SeatStatus.seated)) = true
  ∧ handleBatchSeat tDupSeated (some (JsNumber.finite 5)) 0 "x" ≠ tDupSeated
  ∧ tSeatedB7.seats.any (fun s =>
      decide (s.id = 1 ∧ s.selectedForBatch = true ∧ s.buyInAmount = 10)) = true
  ∧ (handleBatchSeat tSeatedB7 (some (JsNumber.finite (-3))) 0 "x").seats.map
      (fun s => s.buyInAmount)
      = tSeatedB7.seats.map (fun s => s.buyInAmount) := by decide

/-- C7 amended: the batch is rejected atomically, changing nothing, when the
table is stopped, a selected seat has an empty trimmed member id, or the
first seated or rest seat holding a selected seat member id is a different
seat (the check passes when the selected seat itself is found first, even if
a later seat duplicates the member); a cancelled or non finite prompt also
changes nothing. On success every selected non seated seat undergoes exactly
the per seat transition of the non transfer branch of seat up, and every
selected seat receives max 0 amount added to its buy in. -/
theorem batch_seat_amended (tbl : TableState) (promptResult : Option JsNumber)
    (nowMs : Int) (nowStr : String) (amt : Int) :
    (tbl.isRunning = false → handleBatchSeat tbl promptResult nowMs nowStr = tbl)
  ∧ ((tbl.seats.filter (fun s => s.selectedForBatch)).length = 0 →
      handleBatchSeat tbl promptResult nowMs nowStr = tbl)
  ∧ ((tbl.seats.filter (fun s => s.selectedForBatch)).any
        (fun s => decide (jsTrim s.memberId = "")) = true →
      handleBatchSeat tbl promptResult nowMs nowStr = tbl)
  ∧ ((tbl.seats.filter (fun s => s.selectedForBatch)).any (fun s =>
        match findSeatByMember tbl s.memberId with
        | some e => decide (e.id ≠ s.id)
        | none => false) = true →
      handleBatchSeat tbl promptResult nowMs nowStr = tbl)
  ∧ (promptResult = none → handleBatchSeat tbl promptResult nowMs nowStr = tbl)
  ∧ (promptResult = some JsNumber.nan → handleBatchSeat tbl promptResult nowMs nowStr = tbl)
  ∧ (tbl.isRunning = true →
      (tbl.seats.filter (fun s => s.selectedForBatch)).length ≠ 0 →
      (tbl.seats.filter (fun s => s.selectedForBatch)).any
        (fun s => decide (jsTrim s.memberId = "")) = false →
      (tbl.seats.filter (fun s => s.selectedForBatch)).any (fun s =>
        match findSeatByMember tbl s.memberId with
        | some e => decide (e.id ≠ s.id)
        | none => false) = false →
      promptResult = some (JsNumber.finite amt) →
      handleBatchSeat tbl promptResult nowMs nowStr =
        { tbl with seats := tbl.seats.map (fun s =>
            if s.selectedForBatch = false then s
            else if s.status = SeatStatus.seated then
              { s with buyInAmount := s.buyInAmount + max 0 amt }
            else
              { seatUpFoldUpdate s nowMs nowStr with
                buyInAmount := s.buyInAmount + max 0 amt }) }) := by
  refine ⟨?_, ?_, ?_, ?_, ?_, ?_, ?_⟩
  · intro hrun
    simp only [handleBatchSeat]
    rw [if_pos hrun]
  · intro hlen
    simp only [handleBatchSeat]
    split
    · rfl
    · rfl
  · intro hmiss
    simp only [handleBatchSeat]
    split
    · rfl
    · split
      · rfl
      · rfl
  · intro hdup
    simp only [handleBatchSeat]
    split
    · rfl
    · split
      · rfl
      · split
        · rfl
        · rfl
  · intro hp
    subst hp
    simp only [handleBatchSeat]
    split
    · rfl
    · split
      · rfl
      · split
        · rfl
        · split
          · rfl
          · rfl
  · intro hp
    subst hp
    simp only [handleBatchSeat]
    split
    · rfl
    · split
      · rfl
      · split
        · rfl
        · split
          · rfl
          · rfl
  · intro hrun hlen hmiss hdup hp
    subst hp
    simp only [handleBatchSeat]
    rw [if_neg (by simp [hrun]), if_neg hlen, if_neg (by rw [hmiss]; simp),
      if_neg (by rw [hdup]; simp)]
    congr 1
    apply List.map_congr_left
    intro s _
    by_cases h1 : s.selectedForBatch = false
    · simp [h1]
    · by_cases h2 : s.status = SeatStatus.seated
      · simp [h1, h2]
      · simp [h1, h2, seatUpFoldUpdate]

/-- Witness for C7 amended: batch seating the selected idle seat of a
running table seats it and adds the prompted buy in. -/
theorem batch_seat_amended_witness :
    handleBatchSeat tBatchReady (some (JsNumber.finite 10)) 0 "s" =
      { tBatchReady with seats := tBatchReady.seats.map (fun s =>
          if s.selectedForBatch = false then s
          else if s.status = SeatStatus.seated then
            { s with buyInAmount := s.buyInAmount + max 0 10 }
          else
            { seatUpFoldUpdate s 0 "s" with
              buyInAmount := s.buyInAmount + max 0 10 }) } :=
  (batch_seat_amended tBatchReady (some (JsNumber.finite 10)) 0 "s" 10).2.2.2.2.2.2
    (by decide) (by decide) (by decide) (by decide) rfl

/-- Counterexample to C1 as stated: member M1 is seated at seat 1 with no
prior transfer annotation, seat 2 carries the same member id, and the
confirmed seat up on seat 2 appends exactly one record for seat 1 whose
transfer annotation is empty rather than a reference to the source seat;
only the destination seat receives the Transfer-Seat1 annotation. -/
theorem transfer_note_counterexample :
    tTransfer.seats.any (fun s =>
      decide (s.id = 1 ∧ s.memberId = "M1" ∧ s.status = SeatStatus.seated
        ∧ s.transferNote = none)) = true
  ∧ tTransfer.seats.any (fun s =>
      decide (s.id = 2 ∧ s.memberId = "M1" ∧ s.status = SeatStatus.idle)) = true
  ∧ (handleSeatUp tTransfer 2 true 30000 "t30" "d").sessions.map
      (fun r => (r.seatId, r.transferNote)) = [(1, none)]
  ∧ (handleSeatUp tTransfer 2 true 30000 "t30" "d").seats.any (fun s =>
      decide (s.id = 2 ∧ s.status = SeatStatus.seated
        ∧ s.transferNote = some "Transfer-Seat1")) = true := by decide

/-- C1 amended: a confirmed transfer of member M from seat A to seat B
closes the session of A with exactly one new Session Record computed by the
elapsed projection rule and carrying the prior transfer annotation of A
itself (none when the session of A began without a transfer), resets A to
idle, and seats B with a zeroed fresh session anchored at now and a transfer
annotation referencing source seat A. -/
theorem transfer_amended (tbl : TableState) (A B : SeatState) (M : String)
    (nowMs : Int) (nowStr dateStr : String)
    (hrun : tbl.isRunning = true)
    (hnodup : (tbl.seats.map (fun s => s.id)).Nodup)
    (hA : A ∈ tbl.seats) (hB : B ∈ tbl.seats)
    (hne : A.id ≠ B.id)
    (hBm : jsTrim B.memberId = M) (hM : M ≠ "")
    (hAm : A.memberId = M)
    (hAst : A.status = SeatStatus.seated ∨ A.status = SeatStatus.rest)
    (huniq : ∀ s ∈ tbl.seats, s.memberId = M →
      (s.status = SeatStatus.seated ∨ s.status = SeatStatus.rest) → s = A)
    (st : String) (hsess : A.sessionStart = some st) (hstne : st ≠ "") :
    ∃ row, appendSessionRow tbl A nowStr dateStr nowMs = some row ∧
      handleSeatUp tbl B.id true nowMs nowStr dateStr =
        { tbl with
          seats := tbl.seats.map (fun s =>
            if s.id = A.id then clearSeat s
            else if s.id = B.id then
              { s with
                status := SeatStatus.seated
                lastActiveStart := some nowMs
                lastRestStart := none
                activeSeconds := 0
                restSeconds := 0
                sessionStart := some nowStr
                transferNote := some ("Transfer-Seat" ++ toString A.id) }
            else s)
          sessions := tbl.sessions ++ [row] } ∧
      row.seatId = A.id ∧ row.memberId = M ∧ row.transferNote = A.transferNote ∧
      row.activeSeconds = getSeatActiveSeconds A nowMs ∧
      row.restSeconds = getSeatRestSeconds A nowMs := by
  have hAmne : A.memberId ≠ "" := by rw [hAm]; exact hM
  have happ : appendSessionRow tbl A nowStr dateStr nowMs = some
      { date := dateStr
        tableId := tbl.id
        tableName := tbl.name
        seatId := A.id
        memberId := A.memberId
        startTime := st
        endTime := nowStr
        activeSeconds := getSeatActiveSeconds A nowMs
        restSeconds := getSeatRestSeconds A nowMs
        durationHMS := formatHMS (getSeatActiveSeconds A nowMs)
        buyInDisplay :=
          match A.transferNote with
          | some note => note
          | none => toString A.buyInAmount
        buyInAmount :=
          match A.transferNote with
          | some _ => none
          | none => some A.buyInAmount
        transferNote := A.transferNote } := by
    unfold appendSessionRow
    simp only [hsess]
    rw [if_neg (fun hor => Or.elim hor hAmne hstne)]
  have hfindB : tbl.seats.find? (fun s => decide (s.id = B.id)) = some B := by
    apply find_eq_some_of_unique hB (by simp)
    intro b hb hpb
    simp only [decide_eq_true_eq] at hpb
    exact eq_of_mem_nodup_id hnodup hb hB hpb
  have hM2 : jsTrim M = M := by rw [← hBm, jsTrim_idem]
  have hfindA : findSeatByMember tbl M = some A := by
    unfold findSeatByMember
    simp only [hM2]
    rw [if_neg hM]
    apply find_eq_some_of_unique hA
    · simp only [decide_eq_true_eq]
      exact ⟨hAm, hAst⟩
    · intro b hb hpb
      simp only [decide_eq_true_eq] at hpb
      exact huniq b hb hpb.1 hpb.2
  refine ⟨_, happ, ?_, rfl, hAm, rfl, rfl, rfl⟩
  unfold handleSeatUp
  rw [if_neg (by simp [hrun])]
  simp only [hfindB, hBm]
  rw [if_neg hM]
  simp only [hfindA]
  rw [if_neg hne, if_neg (fun hc => Bool.noConfusion hc)]
  have hrows : tbl.seats.filterMap (fun s =>
      if s.id = A.id then appendSessionRow tbl s nowStr dateStr nowMs else none) = [_] :=
    filterMap_by_id hnodup hA _ happ
  rw [hrows, List.map_map]
  have hseats : tbl.seats.map ((fun s =>
      if s.id = B.id then
        { s with
          status := SeatStatus.seated
          lastActiveStart := some nowMs
          lastRestStart := none
          activeSeconds := 0
          restSeconds := 0
          sessionStart := some nowStr
          transferNote := some ("Transfer-Seat" ++ toString A.id) }
      else s) ∘ (fun s => if s.id = A.id then clearSeat s else s))
      = tbl.seats.map (fun s =>
        if s.id = A.id then clearSeat s
        else if s.id = B.id then
          { s with
            status := SeatStatus.seated
            lastActiveStart := some nowMs
            lastRestStart := none
            activeSeconds := 0
            restSeconds := 0
            sessionStart := some nowStr
            transferNote := some ("Transfer-Seat" ++ toString A.id) }
        else s) := by
    apply List.map_congr_left
    intro s _
    by_cases h1 : s.id = A.id
    · have h2 : ¬(s.id = B.id) := fun hc => hne (h1.symm.trans hc)
      simp only [Function.comp_apply, if_pos h1]
      rw [if_neg (show ¬((clearSeat s).id = B.id) from h2)]
    · simp only [Function.comp_apply, if_neg h1]
  rw [hseats]

/-- Witness for C1 amended: the confirmed transfer on the concrete table
appends exactly one record. -/
theorem transfer_amended_witness :
    (handleSeatUp tTransfer seatBval.id true 30000 "t30" "d").sessions.length
      = tTransfer.sessions.length + 1 := by
  obtain ⟨row, happ, heq, hrest⟩ :=
    transfer_amended tTransfer seatAval seatBval "M1" 30000 "t30" "d"
      (by decide) (by decide) (by decide) (by decide) (by decide) (by decide)
      (by decide) (by decide) (by decide) (by decide) "t0" (by decide) (by decide)
  rw [heq]
  simp
